import Mathlib

/-
Verification of the flat-field correction pipeline in
src/flat_field_correction.py.

The embedding models numpy arrays as lists of lists, with rectangularity
expressed by the IsShape predicate.  Sample values are modelled as exact
rationals; decoded raw buffers carry natural-number 16-bit samples.
Fallible operations return Except FFError, where the numpy ValueError
raised on a shape disagreement is modelled as FFError.shapeMismatch and
the ValueError raised by np.stack on an empty list as
FFError.insufficientInput.  Element-wise binary operations follow the
numpy 2-d broadcasting rule, which the source relies on implicitly.
-/

namespace FlatField

/-- Grids of exact rational samples, modelling numpy float arrays. -/
abbrev Grid := List (List ℚ)

/-- Grids of natural-number samples, modelling numpy uint16 arrays. -/
abbrev RawGrid := List (List Nat)

/-- Error taxonomy of the pipeline: shape disagreements and an empty
calibration set. -/
inductive FFError where
  | shapeMismatch
  | insufficientInput
deriving DecidableEq, Repr

/-- Rectangularity: the grid has exactly h rows, each of width w. -/
def IsShape {α : Type} (g : List (List α)) (h w : Nat) : Prop :=
  g.length = h ∧ ∀ row ∈ g, row.length = w

instance {α : Type} (g : List (List α)) (h w : Nat) : Decidable (IsShape g h w) := by
  unfold IsShape
  infer_instance

/-- Element access with numpy-array semantics (in-range in all uses). -/
def pixel (g : Grid) (r c : Nat) : ℚ := (g.getD r []).getD c 0

/-- Element access for natural-number grids. -/
def pixelN (g : RawGrid) (r c : Nat) : Nat := (g.getD r []).getD c 0

/-- Width of a rectangular grid, read off its first row. -/
def gridW (g : Grid) : Nat := (g.headD []).length

/-- Shape equality test used by np.stack: equal row counts and equal
row lengths pairwise. -/
def sameShape (a b : Grid) : Bool :=
  a.length == b.length && (List.zip a b).all (fun p => p.1.length == p.2.length)

/-- Model of np.median on one pixel column: sort the samples; an odd
count yields the middle order-statistic, an even count the average of
the two middle order-statistics. -/
def npMedian (l : List ℚ) : ℚ :=
  if l.length % 2 = 1 then
    (List.insertionSort (fun a b => a ≤ b) l).getD (l.length / 2) 0
  else
    ((List.insertionSort (fun a b => a ≤ b) l).getD (l.length / 2 - 1) 0 +
      (List.insertionSort (fun a b => a ≤ b) l).getD (l.length / 2) 0) / 2

/-- Length of the row a given index selects. -/
def rowLenAt (g : Grid) (r : Nat) : Nat := (g.getD r []).length

/-- Model of create_master_flat on already decoded grids: np.stack of an
empty list raises (insufficientInput), np.stack of grids of unequal
shapes raises (shapeMismatch), and otherwise np.median runs down axis 0,
per pixel position. -/
def create_master_flat (grids : List Grid) : Except FFError Grid :=
  match grids with
  | [] => .error .insufficientInput
  | g :: rest =>
    if rest.all (fun g2 => sameShape g g2) then
      .ok ((List.range g.length).map (fun r =>
        (List.range (rowLenAt g r)).map (fun c =>
          npMedian ((g :: rest).map (fun gi => pixel gi r c)))))
    else .error .shapeMismatch

/-- Model of np.where applied to the master flat: every sample that is
not strictly positive is replaced by the constant 1. -/
def safeFlat (flat : Grid) : Grid :=
  flat.map (fun row => row.map (fun v => if 0 < v then v else 1))

/-- Number of samples of a grid, the numpy array size. -/
def numel {α : Type} (g : List (List α)) : Nat := (g.map List.length).sum

/-- Model of np.mean: total sum divided by the number of samples. -/
def npMean (g : Grid) : ℚ := (g.map List.sum).sum / (numel g : ℚ)

/-- The numpy 2-d broadcasting compatibility rule for elementwise
binary operations. -/
def broadcastCompat (h1 w1 h2 w2 : Nat) : Bool :=
  (h1 == h2 || h1 == 1 || h2 == 1) && (w1 == w2 || w1 == 1 || w2 == 1)

/-- Index selection under broadcasting: a length-1 axis is pinned to 0. -/
def bidx (n r : Nat) : Nat := if n = 1 then 0 else r

/-- Model of apply_flat_field_correction: guard the flat with np.where,
take np.mean of the original flat, and return
(raw / safe flat) * mean with numpy broadcast semantics; shapes that
numpy cannot broadcast raise (shapeMismatch).  The source performs no
explicit shape check. -/
def apply_flat_field_correction (raw master_flat : Grid) : Except FFError Grid :=
  if broadcastCompat raw.length (gridW raw) master_flat.length (gridW master_flat) then
    .ok ((List.range (max raw.length master_flat.length)).map (fun r =>
      (List.range (max (gridW raw) (gridW master_flat))).map (fun c =>
        pixel raw (bidx raw.length r) (bidx (gridW raw) c) /
          pixel (safeFlat master_flat) (bidx master_flat.length r) (bidx (gridW master_flat) c) *
          npMean master_flat)))
  else .error .shapeMismatch

/-- Pairing of a little-endian byte stream into 16-bit samples, the
action of np.fromfile with a uint16 dtype. -/
def bytesToU16LE : List Nat → List Nat
  | lo :: hi :: rest => (lo + 256 * hi) :: bytesToU16LE rest
  | _ => []

/-- Model of load_raw_image on an in-memory byte buffer: read the bytes
as little-endian 16-bit samples and reshape them into height rows of
width samples, row 0 first; a sample count different from
height * width makes np.reshape raise (shapeMismatch). -/
def load_raw_image (buf : List Nat) (width height : Nat) : Except FFError RawGrid :=
  if (bytesToU16LE buf).length = height * width then
    .ok ((List.range height).map (fun i =>
      (List.range width).map (fun j => (bytesToU16LE buf).getD (i * width + j) 0)))
  else .error .shapeMismatch

/-- Row-major little-endian 16-bit encoding of a grid, the inverse
direction of the decoder. -/
def encodeU16LE (g : RawGrid) : List Nat :=
  g.flatten.flatMap (fun v => [v % 256, v / 256])

/-- Statistical median as the spec states it: some sorted rearrangement
of the samples has the output as its middle order-statistic (odd count)
or as the average of its two middle order-statistics (even count). -/
def IsMedian (l : List ℚ) (m : ℚ) : Prop :=
  ∃ s : List ℚ, s.Perm l ∧ List.Sorted (fun a b => a ≤ b) s ∧
    (if l.length % 2 = 1 then m = s.getD (l.length / 2) 0
     else m = (s.getD (l.length / 2 - 1) 0 + s.getD (l.length / 2) 0) / 2)

/-- Smallest sample of a non-empty list (0 on the empty list). -/
def listMinD : List ℚ → ℚ
  | [] => 0
  | x :: xs => xs.foldl min x

/-- Largest sample of a non-empty list (0 on the empty list). -/
def listMaxD : List ℚ → ℚ
  | [] => 0
  | x :: xs => xs.foldl max x

theorem getD_range_map {α : Type} (f : Nat → α) (d : α) {n i : Nat} (hi : i < n) :
    ((List.range n).map f).getD i d = f i := by
  rw [List.getD_eq_getElem _ d (by simpa using hi)]
  simp

theorem shape_build {α : Type} (f : Nat → Nat → α) (h w : Nat) :
    IsShape ((List.range h).map (fun r => (List.range w).map (f r))) h w := by
  constructor
  · simp
  · intro row hrow
    obtain ⟨r, _, rfl⟩ := List.mem_map.mp hrow
    simp

theorem bidx_eq_self {n r : Nat} (h : r < n) : bidx n r = r := by
  unfold bidx
  split
  · omega
  · rfl

theorem broadcastCompat_same (h w : Nat) : broadcastCompat h w h w = true := by
  simp [broadcastCompat]

theorem gridW_eq {g : Grid} {h w : Nat} (hs : IsShape g h w) (hh : 0 < h) :
    gridW g = w := by
  cases g with
  | nil =>
    have h0 : h = 0 := by simpa using hs.1.symm
    omega
  | cons row rest =>
    show row.length = w
    exact hs.2 row (List.mem_cons_self row rest)

theorem pixel_build (f : Nat → Nat → ℚ) {h w r c : Nat} (hr : r < h) (hc : c < w) :
    pixel ((List.range h).map (fun i => (List.range w).map (f i))) r c = f r c := by
  unfold pixel
  rw [getD_range_map _ _ hr, getD_range_map _ _ hc]

theorem pixel_map_map (f : ℚ → ℚ) {g : Grid} {h w r c : Nat} (hs : IsShape g h w)
    (hr : r < h) (hc : c < w) :
    pixel (g.map (fun row => row.map f)) r c = f (pixel g r c) := by
  have hrlen : r < g.length := by rw [hs.1]; exact hr
  have hclen : c < (g[r]).length := by
    rw [hs.2 g[r] (List.getElem_mem hrlen)]
    exact hc
  have h1 : pixel g r c = g[r][c] := by
    unfold pixel
    rw [List.getD_eq_getElem _ _ hrlen, List.getD_eq_getElem _ _ hclen]
  have h2 : (g.map (fun row => row.map f)).getD r [] = (g[r]).map f := by
    rw [List.getD_eq_getElem _ _ (by simpa using hrlen)]
    simp
  have h3 : ((g[r]).map f).getD c 0 = f (g[r][c]) := by
    rw [List.getD_eq_getElem _ _ (by simpa using hclen)]
    simp
  unfold pixel
  unfold pixel at h1
  rw [h2, h3, h1]

theorem pixel_safeFlat {flat : Grid} {h w r c : Nat} (hs : IsShape flat h w)
    (hr : r < h) (hc : c < w) :
    pixel (safeFlat flat) r c = if 0 < pixel flat r c then pixel flat r c else 1 :=
  pixel_map_map (fun v => if 0 < v then v else 1) hs hr hc

theorem pixel_mem {g : Grid} {h w r c : Nat} (hs : IsShape g h w)
    (hr : r < h) (hc : c < w) :
    ∃ row, row ∈ g ∧ pixel g r c ∈ row := by
  have hrlen : r < g.length := by rw [hs.1]; exact hr
  refine ⟨g[r], List.getElem_mem hrlen, ?_⟩
  unfold pixel
  rw [List.getD_eq_getElem _ _ hrlen]
  have hclen : c < (g[r]).length := by
    rw [hs.2 g[r] (List.getElem_mem hrlen)]
    exact hc
  rw [List.getD_eq_getElem _ _ hclen]
  exact List.getElem_mem hclen

theorem map_length_eq_replicate {α : Type} {g : List (List α)} {h w : Nat}
    (hs : IsShape g h w) : g.map List.length = List.replicate h w := by
  have hmem : ∀ b ∈ g.map List.length, b = w := by
    intro b hb
    obtain ⟨row, hrow, rfl⟩ := List.mem_map.mp hb
    exact hs.2 row hrow
  have hrep := List.eq_replicate_length.mpr hmem
  have hlen : (g.map List.length).length = h := by simp [hs.1]
  rwa [hlen] at hrep

theorem numel_eq {α : Type} {g : List (List α)} {h w : Nat} (hs : IsShape g h w) :
    numel g = h * w := by
  unfold numel
  rw [map_length_eq_replicate hs, List.sum_replicate, smul_eq_mul]

theorem npMean_eq {g : Grid} {h w : Nat} (hs : IsShape g h w) :
    npMean g = g.flatten.sum / ((h * w : Nat) : ℚ) := by
  unfold npMean
  rw [numel_eq hs, List.sum_flatten]

theorem sameShape_of_shape {a b : Grid} {h w : Nat} (ha : IsShape a h w)
    (hb : IsShape b h w) : sameShape a b = true := by
  unfold sameShape
  rw [Bool.and_eq_true, beq_iff_eq, List.all_eq_true]
  refine ⟨ha.1.trans hb.1.symm, ?_⟩
  intro p hp
  obtain ⟨x, y⟩ := p
  obtain ⟨hx, hy⟩ := List.of_mem_zip hp
  rw [beq_iff_eq]
  rw [ha.2 x hx, hb.2 y hy]

theorem shape_unique {g : Grid} {h1 w1 h2 w2 : Nat} (hs1 : IsShape g h1 w1)
    (hs2 : IsShape g h2 w2) (hh : 0 < h1) : (h1, w1) = (h2, w2) := by
  have hh12 : h1 = h2 := hs1.1.symm.trans hs2.1
  have hne : g ≠ [] := by
    intro e
    rw [e] at hs1
    have h0 : h1 = 0 := by simpa using hs1.1.symm
    omega
  obtain ⟨row, rest, rfl⟩ := List.exists_cons_of_ne_nil hne
  have hw12 : w1 = w2 :=
    (hs1.2 row (List.mem_cons_self row rest)).symm.trans
      (hs2.2 row (List.mem_cons_self row rest))
  rw [hh12, hw12]

theorem sameShape_shape_eq {a b : Grid} {ha wa hb wb : Nat}
    (hss : sameShape a b = true) (hsa : IsShape a ha wa) (hsb : IsShape b hb wb)
    (hpos : 0 < ha) : (ha, wa) = (hb, wb) := by
  unfold sameShape at hss
  rw [Bool.and_eq_true, beq_iff_eq, List.all_eq_true] at hss
  have hlen : ha = hb := hsa.1.symm.trans (hss.1.trans hsb.1)
  have hane : a ≠ [] := by
    intro e
    rw [e] at hsa
    have h0 : ha = 0 := by simpa using hsa.1.symm
    omega
  have hbne : b ≠ [] := by
    intro e
    rw [e] at hsb
    have h0 : hb = 0 := by simpa using hsb.1.symm
    omega
  obtain ⟨ra, ta, rfl⟩ := List.exists_cons_of_ne_nil hane
  obtain ⟨rb, tb, rfl⟩ := List.exists_cons_of_ne_nil hbne
  have hp : (ra, rb) ∈ List.zip (ra :: ta) (rb :: tb) := by
    rw [List.zip_cons_cons]
    exact List.mem_cons_self _ _
  have hrr := hss.2 (ra, rb) hp
  rw [beq_iff_eq] at hrr
  have hw : wa = wb :=
    (hsa.2 ra (List.mem_cons_self ra ta)).symm.trans
      (hrr.trans (hsb.2 rb (List.mem_cons_self rb tb)))
  rw [hlen, hw]

theorem apply_ok {raw flat : Grid} {h w : Nat} (hraw : IsShape raw h w)
    (hflat : IsShape flat h w) (hh : 0 < h) :
    apply_flat_field_correction raw flat =
      .ok ((List.range h).map (fun r => (List.range w).map (fun c =>
        pixel raw r c / pixel (safeFlat flat) r c * npMean flat))) := by
  unfold apply_flat_field_correction
  rw [hraw.1, hflat.1, gridW_eq hraw hh, gridW_eq hflat hh,
    if_pos (broadcastCompat_same h w), Nat.max_self, Nat.max_self]
  congr 1
  apply List.map_congr_left
  intro r hr
  apply List.map_congr_left
  intro c hc
  rw [bidx_eq_self (List.mem_range.mp hr), bidx_eq_self (List.mem_range.mp hc)]

theorem create_master_flat_ok {g0 : Grid} {gs : List Grid} {h w : Nat}
    (hsh : ∀ g ∈ g0 :: gs, IsShape g h w) :
    create_master_flat (g0 :: gs) =
      .ok ((List.range h).map (fun r => (List.range w).map (fun c =>
        npMedian ((g0 :: gs).map (fun gi => pixel gi r c))))) := by
  have hs0 : IsShape g0 h w := hsh g0 (List.mem_cons_self g0 gs)
  have hall : gs.all (fun g2 => sameShape g0 g2) = true := by
    rw [List.all_eq_true]
    intro g2 hg2
    exact sameShape_of_shape hs0 (hsh g2 (List.mem_cons_of_mem g0 hg2))
  simp only [create_master_flat]
  rw [if_pos hall, hs0.1]
  congr 1
  apply List.map_congr_left
  intro r hr
  have hrw : rowLenAt g0 r = w := by
    unfold rowLenAt
    have hrlen : r < g0.length := by
      rw [hs0.1]
      exact List.mem_range.mp hr
    rw [List.getD_eq_getElem _ _ hrlen]
    exact hs0.2 _ (List.getElem_mem hrlen)
  rw [hrw]

theorem npMedian_perm {l l2 : List ℚ} (hp : l.Perm l2) : npMedian l = npMedian l2 := by
  have hs : List.insertionSort (fun a b => a ≤ b) l =
      List.insertionSort (fun a b => a ≤ b) l2 :=
    List.eq_of_perm_of_sorted
      ((List.perm_insertionSort _ l).trans (hp.trans (List.perm_insertionSort _ l2).symm))
      (List.sorted_insertionSort _ l) (List.sorted_insertionSort _ l2)
  unfold npMedian
  rw [hs, hp.length_eq]

theorem npMedian_isMedian (l : List ℚ) : IsMedian l (npMedian l) := by
  refine ⟨List.insertionSort (fun a b => a ≤ b) l, List.perm_insertionSort _ l,
    List.sorted_insertionSort _ l, ?_⟩
  by_cases hodd : l.length % 2 = 1 <;> simp [npMedian, hodd]

theorem npMedian_mem_bounds {l : List ℚ} {lo hi : ℚ} (hne : l ≠ [])
    (hb : ∀ x ∈ l, lo ≤ x ∧ x ≤ hi) : lo ≤ npMedian l ∧ npMedian l ≤ hi := by
  have hlen : 0 < l.length := List.length_pos.mpr hne
  have hmem : ∀ k, k < l.length →
      lo ≤ (List.insertionSort (fun a b => a ≤ b) l).getD k 0 ∧
      (List.insertionSort (fun a b => a ≤ b) l).getD k 0 ≤ hi := by
    intro k hk
    have hk2 : k < (List.insertionSort (fun a b => a ≤ b) l).length := by
      rw [List.length_insertionSort]
      exact hk
    rw [List.getD_eq_getElem _ _ hk2]
    exact hb _ ((List.perm_insertionSort _ l).mem_iff.mp (List.getElem_mem hk2))
  have hdiv : l.length / 2 < l.length := Nat.div_lt_self hlen (by norm_num)
  unfold npMedian
  split
  · exact hmem _ hdiv
  · have h1 := hmem (l.length / 2 - 1) (by omega)
    have h2 := hmem (l.length / 2) hdiv
    constructor
    · linarith [h1.1, h2.1]
    · linarith [h1.2, h2.2]

theorem foldl_min_le_init (xs : List ℚ) (a : ℚ) : xs.foldl min a ≤ a := by
  induction xs generalizing a with
  | nil => exact le_refl a
  | cons b t ih =>
    simp only [List.foldl_cons]
    exact le_trans (ih (min a b)) (min_le_left a b)

theorem foldl_min_le_mem {xs : List ℚ} {x : ℚ} (hx : x ∈ xs) (a : ℚ) :
    xs.foldl min a ≤ x := by
  induction xs generalizing a with
  | nil => simp at hx
  | cons b t ih =>
    simp only [List.foldl_cons]
    rcases List.mem_cons.mp hx with rfl | hmem
    · exact le_trans (foldl_min_le_init t (min a x)) (min_le_right a x)
    · exact ih hmem (min a b)

theorem listMinD_le {l : List ℚ} {x : ℚ} (hx : x ∈ l) : listMinD l ≤ x := by
  cases l with
  | nil => simp at hx
  | cons a t =>
    show t.foldl min a ≤ x
    rcases List.mem_cons.mp hx with rfl | hmem
    · exact foldl_min_le_init t x
    · exact foldl_min_le_mem hmem a

theorem le_foldl_max_init (xs : List ℚ) (a : ℚ) : a ≤ xs.foldl max a := by
  induction xs generalizing a with
  | nil => exact le_refl a
  | cons b t ih =>
    simp only [List.foldl_cons]
    exact le_trans (le_max_left a b) (ih (max a b))

theorem le_foldl_max_mem {xs : List ℚ} {x : ℚ} (hx : x ∈ xs) (a : ℚ) :
    x ≤ xs.foldl max a := by
  induction xs generalizing a with
  | nil => simp at hx
  | cons b t ih =>
    simp only [List.foldl_cons]
    rcases List.mem_cons.mp hx with rfl | hmem
    · exact le_trans (le_max_right a x) (le_foldl_max_init t (max a x))
    · exact ih hmem (max a b)

theorem le_listMaxD {l : List ℚ} {x : ℚ} (hx : x ∈ l) : x ≤ listMaxD l := by
  cases l with
  | nil => simp at hx
  | cons a t =>
    show x ≤ t.foldl max a
    rcases List.mem_cons.mp hx with rfl | hmem
    · exact le_foldl_max_init t x
    · exact le_foldl_max_mem hmem a

theorem map_getD_range_self {α : Type} (l : List α) (d : α) :
    (List.range l.length).map (fun j => l.getD j d) = l := by
  apply List.ext_getElem
  · simp
  · intro i h1 h2
    have hi : i < l.length := h2
    simp only [List.getElem_map, List.getElem_range]
    rw [List.getD_eq_getElem l d hi]

theorem reshape_flatten {α : Type} (d : α) :
    ∀ (g : List (List α)) (w : Nat), (∀ row ∈ g, row.length = w) →
      (List.range g.length).map (fun i =>
        (List.range w).map (fun j => g.flatten.getD (i * w + j) d)) = g := by
  intro g
  induction g with
  | nil =>
    intro w _
    simp
  | cons row rest ih =>
    intro w hrow
    have hwrow : row.length = w := hrow row (List.mem_cons_self row rest)
    rw [List.length_cons, List.range_succ_eq_map, List.map_cons, List.map_map]
    congr 1
    · have hcongr : ∀ j ∈ List.range w,
          ((row :: rest).flatten).getD (0 * w + j) d = row.getD j d := by
        intro j hj
        have hj2 : j < row.length := by
          rw [hwrow]
          exact List.mem_range.mp hj
        rw [List.flatten_cons, Nat.zero_mul, Nat.zero_add, List.getD_append _ _ _ _ hj2]
      rw [List.map_congr_left hcongr, ← hwrow, map_getD_range_self]
    · have hcongr : ∀ i ∈ List.range rest.length,
          ((fun i => (List.range w).map (fun j =>
            ((row :: rest).flatten).getD (i * w + j) d)) ∘ Nat.succ) i =
          (List.range w).map (fun j => (rest.flatten).getD (i * w + j) d) := by
        intro i _
        simp only [Function.comp_apply]
        apply List.map_congr_left
        intro j _
        rw [List.flatten_cons]
        have hidx : Nat.succ i * w + j = row.length + (i * w + j) := by
          rw [hwrow, Nat.succ_mul]
          ring
        rw [hidx, List.getD_append_right _ _ _ _ (Nat.le_add_right _ _),
          Nat.add_sub_cancel_left]
      rw [List.map_congr_left hcongr, ih w (fun r hr => hrow r (List.mem_cons_of_mem row hr))]

theorem bytesToU16LE_encode (l : List Nat) :
    bytesToU16LE (l.flatMap (fun v => [v % 256, v / 256])) = l := by
  induction l with
  | nil => rfl
  | cons v t ih =>
    rw [List.flatMap_cons]
    show bytesToU16LE (v % 256 :: v / 256 :: t.flatMap (fun v => [v % 256, v / 256])) = v :: t
    rw [bytesToU16LE, ih, Nat.mod_add_div]

theorem flatten_length_eq {α : Type} {g : List (List α)} {h w : Nat}
    (hs : IsShape g h w) : g.flatten.length = h * w := by
  rw [List.length_flatten, map_length_eq_replicate hs, List.sum_replicate, smul_eq_mul]

/-- Claim C1: for every raw grid and master flat of identical (positive)
shape, apply_flat_field_correction returns a grid of the same shape in
which each pixel equals (raw value / safe flat value) * mean(flat),
where the mean is the arithmetic mean over all pixels of the original,
not zero-guarded, master flat, applied as one scalar multiplier; the
arithmetic is exact field arithmetic on the promoted sample values and
no clamping or rounding back to an integer range occurs. -/
theorem c1_correction_formula {raw flat : Grid} {h w : Nat}
    (hraw : IsShape raw h w) (hflat : IsShape flat h w) (hh : 0 < h) (hw : 0 < w) :
    ∃ out : Grid, apply_flat_field_correction raw flat = .ok out ∧ IsShape out h w ∧
      ∀ r c, r < h → c < w →
        pixel out r c =
          pixel raw r c / (if 0 < pixel flat r c then pixel flat r c else 1) *
            (flat.flatten.sum / ((h * w : Nat) : ℚ)) := by
  refine ⟨_, apply_ok hraw hflat hh, shape_build _ h w, ?_⟩
  intro r c hr hc
  rw [pixel_build _ hr hc, pixel_safeFlat hflat hr hc, npMean_eq hflat]

/-- Witness for C1 at raw = [[2, 4]], flat = [[1, 2]]. -/
theorem c1_correction_formula_witness :
    IsShape ([[2, 4]] : Grid) 1 2 ∧ IsShape ([[1, 2]] : Grid) 1 2 ∧ 0 < 1 ∧ 0 < 2 ∧
      (∃ out : Grid, apply_flat_field_correction [[2, 4]] [[1, 2]] = .ok out ∧
        IsShape out 1 2 ∧
        ∀ r c, r < 1 → c < 2 →
          pixel out r c =
            pixel [[2, 4]] r c /
                (if 0 < pixel ([[1, 2]] : Grid) r c then pixel ([[1, 2]] : Grid) r c else 1) *
              ((([[1, 2]] : Grid).flatten.sum) / ((1 * 2 : Nat) : ℚ))) :=
  ⟨by decide, by decide, by decide, by decide,
    c1_correction_formula (by decide) (by decide) (by decide) (by decide)⟩

/-- Claim C3: the zero-guard replaces every flat pixel that is zero or
negative by exactly the constant 1, solely for the division at that
position; for identically shaped inputs the correction succeeds, every
division happens by a strictly positive guarded value, and at a
guarded position the output is raw value times the mean of the flat,
a finite rational. -/
theorem c3_zero_guard {raw flat : Grid} {h w : Nat}
    (hraw : IsShape raw h w) (hflat : IsShape flat h w) (hh : 0 < h) (hw : 0 < w) :
    ∃ out : Grid, apply_flat_field_correction raw flat = .ok out ∧
      ∀ r c, r < h → c < w →
        0 < pixel (safeFlat flat) r c ∧
        (pixel flat r c ≤ 0 →
          pixel (safeFlat flat) r c = 1 ∧
          pixel out r c = pixel raw r c * npMean flat) := by
  refine ⟨_, apply_ok hraw hflat hh, ?_⟩
  intro r c hr hc
  rw [pixel_build _ hr hc, pixel_safeFlat hflat hr hc]
  constructor
  · split
    · assumption
    · norm_num
  · intro hle
    have hnot : ¬ 0 < pixel flat r c := not_lt.mpr hle
    rw [if_neg hnot]
    exact ⟨rfl, by rw [div_one]⟩

/-- Witness for C3 at raw = [[3, 4]], flat = [[0, -1]]. -/
theorem c3_zero_guard_witness :
    IsShape ([[3, 4]] : Grid) 1 2 ∧ IsShape ([[0, -1]] : Grid) 1 2 ∧ 0 < 1 ∧ 0 < 2 ∧
      (∃ out : Grid, apply_flat_field_correction [[3, 4]] [[0, -1]] = .ok out ∧
        ∀ r c, r < 1 → c < 2 →
          0 < pixel (safeFlat [[0, -1]]) r c ∧
          (pixel ([[0, -1]] : Grid) r c ≤ 0 →
            pixel (safeFlat [[0, -1]]) r c = 1 ∧
            pixel out r c = pixel [[3, 4]] r c * npMean [[0, -1]])) :=
  ⟨by decide, by decide, by decide, by decide,
    c3_zero_guard (by decide) (by decide) (by decide) (by decide)⟩

/-- Claim C5: if raw equals flat pixelwise at every position where the
flat is positive, the corrected grid equals the constant mean of the
flat at every such position. -/
theorem c5_mean_renormalization {raw flat : Grid} {h w : Nat}
    (hraw : IsShape raw h w) (hflat : IsShape flat h w) (hh : 0 < h) (hw : 0 < w)
    (heq : ∀ r c, r < h → c < w → 0 < pixel flat r c → pixel raw r c = pixel flat r c) :
    ∃ out : Grid, apply_flat_field_correction raw flat = .ok out ∧
      ∀ r c, r < h → c < w → 0 < pixel flat r c → pixel out r c = npMean flat := by
  refine ⟨_, apply_ok hraw hflat hh, ?_⟩
  intro r c hr hc hpos
  rw [pixel_build _ hr hc, pixel_safeFlat hflat hr hc, if_pos hpos,
    heq r c hr hc hpos, div_self (ne_of_gt hpos), one_mul]

/-- Witness for C5 at raw = flat = [[1, 2]]. -/
theorem c5_mean_renormalization_witness :
    IsShape ([[1, 2]] : Grid) 1 2 ∧ 0 < 1 ∧ 0 < 2 ∧
      (∀ r c, r < 1 → c < 2 → 0 < pixel ([[1, 2]] : Grid) r c →
        pixel ([[1, 2]] : Grid) r c = pixel ([[1, 2]] : Grid) r c) ∧
      (∃ out : Grid, apply_flat_field_correction [[1, 2]] [[1, 2]] = .ok out ∧
        ∀ r c, r < 1 → c < 2 → 0 < pixel ([[1, 2]] : Grid) r c →
          pixel out r c = npMean [[1, 2]]) :=
  ⟨by decide, by decide, by decide, fun _ _ _ _ _ => rfl,
    c5_mean_renormalization (by decide) (by decide) (by decide) (by decide)
      (fun _ _ _ _ _ => rfl)⟩

/-- Claim C7: aggregating an empty calibration set fails with
insufficientInput and produces no master flat. -/
theorem c7_empty_calibration_set :
    create_master_flat [] = .error .insufficientInput := rfl

/-- Claim C2: for every non-empty family of same-shaped grids,
create_master_flat returns a grid of that shape holding, at each
position independently, the statistical median of the frame values
there: some sorted rearrangement of the per-position samples has the
output as its middle order-statistic for an odd count, and as the
average of its two middle order-statistics for an even count; in
particular the per-pixel values 10, 20, 30 aggregate to 20 and
10, 20, 30, 40 aggregate to 25. -/
theorem c2_master_flat_median {g0 : Grid} {gs : List Grid} {h w : Nat}
    (hsh : ∀ g ∈ g0 :: gs, IsShape g h w) :
    (∃ out : Grid, create_master_flat (g0 :: gs) = .ok out ∧ IsShape out h w ∧
      ∀ r c, r < h → c < w →
        IsMedian ((g0 :: gs).map (fun gi => pixel gi r c)) (pixel out r c)) ∧
    create_master_flat [[[10]], [[20]], [[30]]] = .ok [[20]] ∧
    create_master_flat [[[10]], [[20]], [[30]], [[40]]] = .ok [[25]] := by
  refine ⟨⟨_, create_master_flat_ok hsh, shape_build _ h w, ?_⟩, ?_, ?_⟩
  · intro r c hr hc
    rw [pixel_build _ hr hc]
    exact npMedian_isMedian _
  · norm_num [create_master_flat, npMedian, rowLenAt, pixel, sameShape,
      List.insertionSort, List.orderedInsert, List.range_succ]
  · norm_num [create_master_flat, npMedian, rowLenAt, pixel, sameShape,
      List.insertionSort, List.orderedInsert, List.range_succ]

/-- Witness for C2 at the calibration set [[[10]], [[20]], [[30]]]. -/
theorem c2_master_flat_median_witness :
    (∀ g ∈ ([[[10]], [[20]], [[30]]] : List Grid), IsShape g 1 1) ∧
      ((∃ out : Grid, create_master_flat [[[10]], [[20]], [[30]]] = .ok out ∧
          IsShape out 1 1 ∧
          ∀ r c, r < 1 → c < 1 →
            IsMedian (([[[10]], [[20]], [[30]]] : List Grid).map
              (fun gi => pixel gi r c)) (pixel out r c)) ∧
        create_master_flat [[[10]], [[20]], [[30]]] = .ok [[20]] ∧
        create_master_flat [[[10]], [[20]], [[30]], [[40]]] = .ok [[25]]) :=
  ⟨by decide, c2_master_flat_median (by decide)⟩

/-- Claim C6: create_master_flat is invariant under every permutation
of a fixed non-empty calibration set of same-shaped grids. -/
theorem c6_median_order_invariance {grids grids2 : List Grid} (h w : Nat)
    (hperm : grids.Perm grids2) (hne : grids ≠ [])
    (hsh : ∀ g ∈ grids, IsShape g h w) :
    create_master_flat grids = create_master_flat grids2 := by
  obtain ⟨g0, gs, rfl⟩ : ∃ a b, grids = a :: b := by
    cases grids with
    | nil => exact absurd rfl hne
    | cons a b => exact ⟨a, b, rfl⟩
  obtain ⟨g0', gs', rfl⟩ : ∃ a b, grids2 = a :: b := by
    cases grids2 with
    | nil =>
      have hlen := hperm.length_eq
      simp at hlen
    | cons a b => exact ⟨a, b, rfl⟩
  have hsh2 : ∀ g ∈ g0' :: gs', IsShape g h w := fun g hg =>
    hsh g (hperm.mem_iff.mpr hg)
  rw [create_master_flat_ok hsh, create_master_flat_ok hsh2]
  congr 1
  apply List.map_congr_left
  intro r _
  apply List.map_congr_left
  intro c _
  exact npMedian_perm (hperm.map (fun gi => pixel gi r c))

/-- Witness for C6 at the two orderings of the set of [[1]] and [[2]]. -/
theorem c6_median_order_invariance_witness :
    ([[[1]], [[2]]] : List Grid).Perm [[[2]], [[1]]] ∧
      ([[[1]], [[2]]] : List Grid) ≠ [] ∧
      (∀ g ∈ ([[[1]], [[2]]] : List Grid), IsShape g 1 1) ∧
      create_master_flat [[[1]], [[2]]] = create_master_flat [[[2]], [[1]]] :=
  ⟨by decide, by decide, by decide,
    c6_median_order_invariance 1 1 (by decide) (by decide) (by decide)⟩

/-- Claim C10: each master flat pixel lies between the smallest and the
largest of the frame values at its position; in particular, when every
input sample lies in the closed range 0 to 65535, so does every master
flat pixel. -/
theorem c10_master_flat_bounds {g0 : Grid} {gs : List Grid} (h w : Nat) {r c : Nat}
    (hsh : ∀ g ∈ g0 :: gs, IsShape g h w) (hr : r < h) (hc : c < w) :
    ∃ out : Grid, create_master_flat (g0 :: gs) = .ok out ∧
      listMinD ((g0 :: gs).map (fun gi => pixel gi r c)) ≤ pixel out r c ∧
      pixel out r c ≤ listMaxD ((g0 :: gs).map (fun gi => pixel gi r c)) ∧
      ((∀ g ∈ g0 :: gs, ∀ row ∈ g, ∀ v ∈ row, 0 ≤ v ∧ v ≤ 65535) →
        0 ≤ pixel out r c ∧ pixel out r c ≤ 65535) := by
  refine ⟨_, create_master_flat_ok hsh, ?_⟩
  rw [pixel_build _ hr hc]
  have hcolne : ((g0 :: gs).map (fun gi => pixel gi r c)) ≠ [] := by simp
  have hbounds := npMedian_mem_bounds hcolne
    (fun x hx => ⟨listMinD_le hx, le_listMaxD hx⟩)
  refine ⟨hbounds.1, hbounds.2, ?_⟩
  intro hall
  apply npMedian_mem_bounds hcolne
  intro x hx
  obtain ⟨gi, hgi, rfl⟩ := List.mem_map.mp hx
  obtain ⟨row, hrowmem, hpix⟩ := pixel_mem (hsh gi hgi) hr hc
  exact hall gi hgi row hrowmem _ hpix

/-- Witness for C10 at the calibration set [[[10]], [[20]], [[30]]],
position (0, 0). -/
theorem c10_master_flat_bounds_witness :
    (∀ g ∈ ([[[10]], [[20]], [[30]]] : List Grid), IsShape g 1 1) ∧ 0 < 1 ∧
      (∃ out : Grid, create_master_flat [[[10]], [[20]], [[30]]] = .ok out ∧
        listMinD (([[[10]], [[20]], [[30]]] : List Grid).map
          (fun gi => pixel gi 0 0)) ≤ pixel out 0 0 ∧
        pixel out 0 0 ≤ listMaxD (([[[10]], [[20]], [[30]]] : List Grid).map
          (fun gi => pixel gi 0 0)) ∧
        ((∀ g ∈ ([[[10]], [[20]], [[30]]] : List Grid), ∀ row ∈ g, ∀ v ∈ row,
            0 ≤ v ∧ v ≤ 65535) →
          0 ≤ pixel out 0 0 ∧ pixel out 0 0 ≤ 65535)) :=
  ⟨by decide, by decide,
    c10_master_flat_bounds 1 1 (by decide) (by decide) (by decide)⟩

/-- Counterexample to C4 as stated: the 1 by 1 raw grid [[2]] and the
2 by 2 flat [[1, 2], [3, 4]] have differing (height, width) dimensions,
yet apply_flat_field_correction does not fail: numpy broadcasting
accepts the shape pair and a numeric result is produced. -/
theorem c4_counterexample :
    (([[2]] : Grid).length, gridW [[2]]) ≠
      (([[1, 2], [3, 4]] : Grid).length, gridW [[1, 2], [3, 4]]) ∧
    apply_flat_field_correction [[2]] [[1, 2], [3, 4]] =
      .ok [[5, 5 / 2], [5 / 3, 5 / 4]] := by
  constructor
  · decide
  · norm_num [apply_flat_field_correction, safeFlat, npMean, numel, gridW,
      broadcastCompat, bidx, pixel, List.range_succ]

/-- Claim C4, amended: apply_flat_field_correction fails with
shapeMismatch exactly when the two shapes are not numpy
broadcast-compatible; a pair of differing but broadcast-compatible
shapes (one of the differing dimensions being 1) instead yields a
numeric broadcast result, since the source performs no explicit shape
check.  create_master_flat does fail with shapeMismatch on every
sequence containing two grids of differing dimensions. -/
theorem c4_shape_enforcement_amended :
    (∀ (raw flat : Grid) (h1 w1 h2 w2 : Nat), IsShape raw h1 w1 →
      IsShape flat h2 w2 → 0 < h1 → 0 < h2 →
      broadcastCompat h1 w1 h2 w2 = false →
      apply_flat_field_correction raw flat = .error .shapeMismatch) ∧
    (∀ (grids : List Grid) (g1 g2 : Grid) (h1 w1 h2 w2 : Nat),
      (∀ g ∈ grids, ∃ hg wg, 0 < hg ∧ IsShape g hg wg) →
      g1 ∈ grids → g2 ∈ grids → IsShape g1 h1 w1 → IsShape g2 h2 w2 →
      0 < h1 → 0 < h2 → (h1, w1) ≠ (h2, w2) →
      create_master_flat grids = .error .shapeMismatch) := by
  constructor
  · intro raw flat h1 w1 h2 w2 hraw hflat hh1 hh2 hbc
    unfold apply_flat_field_correction
    rw [hraw.1, hflat.1, gridW_eq hraw hh1, gridW_eq hflat hh2, hbc]
    simp
  · intro grids g1 g2 h1 w1 h2 w2 hall hg1 hg2 hs1 hs2 hh1 hh2 hd
    cases grids with
    | nil => simp at hg1
    | cons g0 rest =>
      obtain ⟨h0, w0, hh0, hs0⟩ := hall g0 (List.mem_cons_self g0 rest)
      have hnotall : ¬ rest.all (fun gb => sameShape g0 gb) = true := by
        intro hall2
        rw [List.all_eq_true] at hall2
        have hsig : ∀ g ∈ g0 :: rest, ∀ hg wg, IsShape g hg wg → 0 < hg →
            (hg, wg) = (h0, w0) := by
          intro g hgmem hg wg hsg hpos
          rcases List.mem_cons.mp hgmem with rfl | hmem
          · exact shape_unique hsg hs0 hpos
          · exact (sameShape_shape_eq (hall2 g hmem) hs0 hsg hh0).symm
        have e1 := hsig g1 hg1 h1 w1 hs1 hh1
        have e2 := hsig g2 hg2 h2 w2 hs2 hh2
        exact hd (e1.trans e2.symm)
      simp only [create_master_flat]
      rw [if_neg hnotall]

/-- Witness for the amended C4: a non-broadcastable pair (2 by 2 raw
against 3 by 3 flat) makes the correction fail, and a calibration list
holding a 1 by 1 and a 2 by 2 grid makes aggregation fail. -/
theorem c4_shape_enforcement_amended_witness :
    (IsShape ([[1, 2], [3, 4]] : Grid) 2 2 ∧
      IsShape ([[1, 1, 1], [1, 1, 1], [1, 1, 1]] : Grid) 3 3 ∧
      broadcastCompat 2 2 3 3 = false ∧
      apply_flat_field_correction [[1, 2], [3, 4]]
        [[1, 1, 1], [1, 1, 1], [1, 1, 1]] = .error .shapeMismatch) ∧
    ((∀ g ∈ ([[[1]], [[1, 2], [3, 4]]] : List Grid),
        ∃ hg wg, 0 < hg ∧ IsShape g hg wg) ∧
      ((1, 1) : Nat × Nat) ≠ (2, 2) ∧
      create_master_flat [[[1]], [[1, 2], [3, 4]]] = .error .shapeMismatch) := by
  have hall : ∀ g ∈ ([[[1]], [[1, 2], [3, 4]]] : List Grid),
      ∃ hg wg, 0 < hg ∧ IsShape g hg wg := by
    intro g hgmem
    rcases List.mem_cons.mp hgmem with rfl | hmem
    · exact ⟨1, 1, by decide, by decide⟩
    · rcases List.mem_cons.mp hmem with rfl | hmem2
      · exact ⟨2, 2, by decide, by decide⟩
      · simp at hmem2
  refine ⟨⟨by decide, by decide, by decide, ?_⟩, hall, by decide, ?_⟩
  · exact c4_shape_enforcement_amended.1 [[1, 2], [3, 4]]
      [[1, 1, 1], [1, 1, 1], [1, 1, 1]] 2 2 3 3 (by decide) (by decide)
      (by decide) (by decide) (by decide)
  · exact c4_shape_enforcement_amended.2 [[[1]], [[1, 2], [3, 4]]]
      [[1]] [[1, 2], [3, 4]] 1 1 2 2 hall (by decide) (by decide)
      (by decide) (by decide) (by decide) (by decide) (by decide)

/-- Claim C8: encoding a grid of unsigned 16-bit samples to a
little-endian 16-bit byte buffer in row-major order and decoding that
buffer with the same width and height yields the identical grid. -/
theorem c8_encode_decode_roundtrip {g : RawGrid} {h w : Nat} (hs : IsShape g h w)
    (h16 : ∀ row ∈ g, ∀ v ∈ row, v < 65536) :
    load_raw_image (encodeU16LE g) w h = .ok g := by
  unfold load_raw_image encodeU16LE
  rw [bytesToU16LE_encode, if_pos (flatten_length_eq hs)]
  congr 1
  have hre := reshape_flatten 0 g w hs.2
  rw [hs.1] at hre
  exact hre

/-- Witness for C8 at the 2 by 2 grid [[1, 300], [2, 65535]]. -/
theorem c8_encode_decode_roundtrip_witness :
    IsShape ([[1, 300], [2, 65535]] : RawGrid) 2 2 ∧
      (∀ row ∈ ([[1, 300], [2, 65535]] : RawGrid), ∀ v ∈ row, v < 65536) ∧
      load_raw_image (encodeU16LE [[1, 300], [2, 65535]]) 2 2 =
        .ok [[1, 300], [2, 65535]] :=
  ⟨by decide, by decide, c8_encode_decode_roundtrip (by decide) (by decide)⟩

/-- Claim C9: decoding fails with shapeMismatch, producing no partial
grid, whenever the buffer's 16-bit element count differs from
width * height; when the count matches, decoding succeeds with height
rows of width samples each, row 0 first, the row-major reading of the
element sequence. -/
theorem c9_decode_contract (buf : List Nat) (width height : Nat) :
    ((bytesToU16LE buf).length ≠ width * height →
      load_raw_image buf width height = .error .shapeMismatch) ∧
    ((bytesToU16LE buf).length = width * height →
      ∃ img : RawGrid, load_raw_image buf width height = .ok img ∧
        img.length = height ∧ (∀ row ∈ img, row.length = width) ∧
        ∀ i j, i < height → j < width →
          pixelN img i j = (bytesToU16LE buf).getD (i * width + j) 0) := by
  constructor
  · intro hne
    unfold load_raw_image
    rw [if_neg (fun heq => hne (heq.trans (Nat.mul_comm height width)))]
  · intro heq
    unfold load_raw_image
    rw [if_pos (heq.trans (Nat.mul_comm width height))]
    refine ⟨_, rfl, by simp, ?_, ?_⟩
    · intro row hrow
      obtain ⟨i, _, rfl⟩ := List.mem_map.mp hrow
      simp
    · intro i j hi hj
      unfold pixelN
      rw [getD_range_map _ _ hi, getD_range_map _ _ hj]

/-- Witness for C9: the 2-byte buffer [1, 0] has 1 element and fails to
decode as 3 by 1, while the 6-byte buffer [1, 0, 0, 1, 2, 0] has the 3
elements 1, 256, 2 and decodes as one row of three. -/
theorem c9_decode_contract_witness :
    ((bytesToU16LE [1, 0]).length ≠ 3 * 1 ∧
      load_raw_image [1, 0] 3 1 = .error .shapeMismatch) ∧
    ((bytesToU16LE [1, 0, 0, 1, 2, 0]).length = 3 * 1 ∧
      ∃ img : RawGrid, load_raw_image [1, 0, 0, 1, 2, 0] 3 1 = .ok img ∧
        img.length = 1 ∧ (∀ row ∈ img, row.length = 3) ∧
        ∀ i j, i < 1 → j < 3 →
          pixelN img i j = (bytesToU16LE [1, 0, 0, 1, 2, 0]).getD (i * 3 + j) 0) :=
  ⟨⟨by decide, (c9_decode_contract [1, 0] 3 1).1 (by decide)⟩,
    ⟨by decide, (c9_decode_contract [1, 0, 0, 1, 2, 0] 3 1).2 (by decide)⟩⟩

end FlatField
